import Mathlib

/-
Verification of jhsiao/importutils.py against its natural-language
specification.  Python strings are modelled as lists of characters,
the filesystem, the pkgutil package walker and the import machinery as
explicit oracles, and exceptions as Option results.  Every definition
below is translated from the Python source except those explicitly
marked as modelled from the specification's words for comparison.
-/

set_option autoImplicit false

namespace ImportUtils

/-- Python strings are modelled as lists of characters. -/
abbrev Str := List Char

/-- Convert a Lean string literal to the character-list model. -/
def pyStr (s : String) : Str := s.toList

/-- Helper for `pySplit`: prepend a character to the first piece of a
split result (Python accumulates characters of the current piece). -/
def consHead (x : Char) : List Str → List Str
  | [] => [[x]]
  | y :: ys => (x :: y) :: ys

/-- Python `s.split(c)` for a one-character separator `c`: splits on
every occurrence; the empty string yields a single empty piece. -/
def pySplit : Str → Char → List Str
  | [], _ => [[]]
  | x :: xs, c =>
    if x = c then [] :: pySplit xs c
    else consHead x (pySplit xs c)

/-- Python `sep.join(pieces)`. -/
def pyJoin (sep : Str) : List Str → Str
  | [] => []
  | [x] => x
  | x :: y :: ys => x ++ sep ++ pyJoin sep (y :: ys)

/-- Python `s.split(c, 1)`: the part before the first occurrence of
`c`, and `some rest` when `c` occurs (`none` when it does not). -/
def pySplitFirst : Str → Char → Str × Option Str
  | [], _ => ([], none)
  | x :: xs, c =>
    if x = c then ([], some xs)
    else
      let r := pySplitFirst xs c
      (x :: r.1, r.2)

/-- Python `s.rsplit(c, 1)[-1]`: the suffix after the last occurrence
of `c`, or the whole string when `c` does not occur. -/
def pyRsplitLast (s : Str) (c : Char) : Str :=
  (s.reverse.takeWhile (fun a => a ≠ c)).reverse

/-- Python `s.startswith(p)`. -/
def pyStartsWith (s p : Str) : Bool := List.isPrefixOf p s

/-- Python `s.endswith(p)`. -/
def pyEndsWith (s p : Str) : Bool := List.isPrefixOf p.reverse s.reverse

/-- Python `os.path.splitext` applied to a bare file name (no path
separators): split off the extension at the last dot, except that a
name whose characters before that dot are all dots has no extension. -/
def pySplitext (s : Str) : Str × Str :=
  let r := s.reverse
  let extRev := r.takeWhile (fun a => a ≠ '.')
  if extRev.length = r.length then (s, [])
  else
    let root := (r.drop (extRev.length + 1)).reverse
    if root.all (fun a => a = '.') then (s, [])
    else (root, '.' :: extRev.reverse)

/-- Python `os.path.dirname` (posix behaviour). -/
def pyDirname (p : Str) : Str :=
  let r := p.reverse
  let tailRev := r.takeWhile (fun a => a ≠ '/')
  if tailRev.length = r.length then []
  else
    let headPart := (r.drop tailRev.length).reverse
    if headPart.all (fun a => a = '/') then headPart
    else (headPart.reverse.dropWhile (fun a => a = '/')).reverse

/-- Python `os.path.join` (posix behaviour, two arguments). -/
def pyJoinPath (a b : Str) : Str :=
  if b.head? = some '/' then b
  else if a = [] ∨ a.getLast? = some '/' then a ++ b
  else a ++ '/' :: b

/-- Python runtime values: an object with an optional explicit export
list (the value of an `__all__` attribute, meaningful for modules) and
an attribute dictionary. -/
inductive Value where
  | mk (allNames : Option (List Str)) (attrs : List (Str × Value)) : Value

/-- Lookup in an attribute dictionary (first match). -/
def lookupStr : List (Str × Value) → Str → Option Value
  | [], _ => none
  | (k, v) :: rest, n => if k = n then some v else lookupStr rest n

/-- Python `getattr(v, name)` with a raised `AttributeError` modelled
as `none`. -/
def pyGetattr (v : Value) (name : Str) : Option Value :=
  match v with
  | .mk _ attrs => lookupStr attrs name

/-- Lookup in a translation table (an association list modelling the
Python dict passed as `translate`). -/
def lookupT : List (Str × Str) → Str → Option Str
  | [], _ => none
  | (k, v) :: rest, n => if k = n then some v else lookupT rest n

/-- Python `translate.get(seg, seg)`: translate a module-path segment,
identity when the segment is absent from the table. -/
def tget (translate : List (Str × Str)) (s : Str) : Str :=
  match lookupT translate s with
  | some v => v
  | none => s

/-- The loop `for name in parts: item = getattr(item, name)` of `get`:
successive attribute lookups, a missing attribute propagating the
failure with no partial result. -/
def walkAttrs : Value → List Str → Option Value
  | v, [] => some v
  | v, n :: ns =>
    match pyGetattr v n with
    | none => none
    | some w => walkAttrs w ns

/-- The `get` function of importutils.py (the Resolver): split the
spec on the first colon, translate each dot-separated segment of the
module part through the table, rejoin, import the resulting module
name through the loader oracle `env` (failure propagates), then walk
the item path by successive attribute lookups.  A spec without a colon
or with an empty item part returns the module itself. -/
def pyGet (env : Str → Option Value) (translate : List (Str × Str))
    (spec : Str) : Option Value :=
  let parts := pySplitFirst spec ':'
  let modname := pyJoin ['.'] ((pySplit parts.1 '.').map (tget translate))
  match env modname with
  | none => none
  | some item =>
    match parts.2 with
    | some itemPath =>
      if itemPath.isEmpty then some item
      else walkAttrs item (pySplit itemPath '.')
    | none => some item

/-- Modelled from the claim's words for claim C2: the spec string
obtained by replacing each dot-separated segment of the module part by
its image under the translation table, leaving the item part alone. -/
def translatedSpec (translate : List (Str × Str)) (spec : Str) : Str :=
  let parts := pySplitFirst spec ':'
  let m2 := pyJoin ['.'] ((pySplit parts.1 '.').map (tget translate))
  match parts.2 with
  | none => m2
  | some itemPath => m2 ++ ':' :: itemPath

/-- The filesystem collaborator: file and directory tests, directory
listing, and the `os.path.abspath(os.path.normpath(_))` canonicalizer
used by the fallback walker. -/
structure FS where
  isFile : Str → Bool
  isDir : Str → Bool
  listdir : Str → List Str
  normabs : Str → Str

namespace Condition

/-- Condition.is_module: the path is a file ending in `.py`, or a file
ending in `.pyc` with no corresponding source next to it (the source
name is the path with its final character removed, `fullpath[:-1]`). -/
def is_module (fs : FS) (fullpath : Str) : Bool :=
  fs.isFile fullpath &&
    (pyEndsWith fullpath (pyStr ".py") ||
      (pyEndsWith fullpath (pyStr ".pyc") && !fs.isFile fullpath.dropLast))

/-- Condition.is_package: the path is a directory and either contains
an `__init__.py` file or `sys.version_info.major > 3.3` holds, the
integer major version being compared against the float 3.3 (modelled
as the rational 33/10, which compares identically against every
integer major version). -/
def is_package (fs : FS) (vMajor : Nat) (fullpath : Str) : Bool :=
  fs.isDir fullpath &&
    (fs.isFile (pyJoinPath fullpath (pyStr "__init__.py")) ||
      decide ((33 : ℚ) / 10 < (vMajor : ℚ)))

/-- Condition.importable: module or package. -/
def importable (fs : FS) (vMajor : Nat) (fullpath : Str) : Bool :=
  is_module fs fullpath || is_package fs vMajor fullpath

/-- Condition.checkmod: the final dot-separated segment of the module
name does not start with an underscore, and the path is importable. -/
def checkmod (fs : FS) (vMajor : Nat) (module fullpath : Str) : Bool :=
  !pyStartsWith (pyRsplitLast module '.') ['_'] &&
    importable fs vMajor fullpath

end Condition

/-- A Python object passed as the `condition` argument: it may or may
not carry a `checkmod` attribute (`checkmodAttr`), it can be called
with two arguments (`call2`, used by the fallback walker when there is
no `checkmod` attribute) and with three arguments (`call3`, the symbol
filter used by `find`; `none` models a raised exception). -/
structure CondObj where
  checkmodAttr : Option (Str → Str → Bool)
  call2 : Str → Str → Bool
  call3 : Str → Str → Value → Option Bool

/-- Lines 86-89 of importutils.py: `condition = getattr(condition,
'checkmod')` with `AttributeError` leaving the object itself in place,
so an object without a `checkmod` attribute is itself used as the
two-argument path filter of the fallback walker. -/
def resolveCheckmod (o : CondObj) : Str → Str → Bool :=
  match o.checkmodAttr with
  | some f => f
  | none => o.call2

/-- A default `Condition()` instance: its `checkmod` attribute is the
class method above, and calling it with three arguments accepts any
symbol whose name does not start with an underscore (and never
raises).  Calling it with two arguments would raise; that entry is
never consulted because the `checkmod` attribute exists. -/
def defaultCondition (fs : FS) (vMajor : Nat) : CondObj where
  checkmodAttr := some (Condition.checkmod fs vMajor)
  call2 := fun _ _ => false
  call3 := fun _package name _thing => some (!pyStartsWith name ['_'])

/-- The `for fname in os.listdir(path)` loop of the fallback walker:
each entry's candidate name is the prefix concatenated with the entry
name minus its extension; an accepted candidate is yielded and, when
the entry is a directory, `(candidate + '.', fullpath)` is appended to
the work queue. -/
def listdirLoop (fs : FS) (cond : Str → Str → Bool) (pfx dirpath : Str) :
    List Str → List (Str × Str) → List Str × List (Str × Str)
  | [], queue => ([], queue)
  | fname :: rest, queue =>
    let nm := (pySplitext fname).1
    let fullpath := pyJoinPath dirpath fname
    let candidate := pfx ++ nm
    if cond candidate fullpath then
      let queue2 :=
        if fs.isDir fullpath then queue ++ [(candidate ++ ['.'], fullpath)]
        else queue
      let pr := listdirLoop fs cond pfx dirpath rest queue2
      (candidate :: pr.1, pr.2)
    else listdirLoop fs cond pfx dirpath rest queue

/-- The `while paths:` loop of the fallback walker of `_itermodules`:
pop the left end of the work queue, canonicalize the path, replace a
file by its containing directory, process its directory listing, and
continue with the extended queue.  The fuel argument bounds the number
of processed queue items; the Python loop has no such bound and the
claims below are evaluated with sufficient fuel. -/
def fallbackWalk (fs : FS) (cond : Str → Str → Bool) :
    Nat → List (Str × Str) → List Str
  | 0, _ => []
  | _ + 1, [] => []
  | fuel + 1, (pfx, p) :: rest =>
    let p1 := fs.normabs p
    let p2 := if fs.isFile p1 then pyDirname p1 else p1
    let pr := listdirLoop fs cond pfx p2 (fs.listdir p2) rest
    pr.1 ++ fallbackWalk fs cond fuel pr.2

/-- The `_itermodules` generator, as the list of names it yields.  The
walker oracle `walk` models `pkgutil.walk_packages(dnames, prefix)`:
it returns the names the primary strategy yields before finishing or
raising, and whether it raised.  On a raise, the names already yielded
stand, and the fallback walker runs seeded with one `(prefix, path)`
pair per original root, in root order. -/
def itermodules (fs : FS) (walk : List Str → Str → List Str × Bool)
    (o : CondObj) (paths : List Str) (pfx : Str) (fuel : Nat) : List Str :=
  let condition := resolveCheckmod o
  let dnames := paths.map (fun p => if fs.isFile p then pyDirname p else p)
  let pr := walk dnames pfx
  if pr.2 then
    pr.1 ++ fallbackWalk fs condition fuel (paths.map (fun p => (pfx, p)))
  else pr.1

/-- Python `keys = module.__all__` with an `AttributeError` fallback
to `dir(module)`: the explicit export list when declared, otherwise
the full attribute-name listing. -/
def selectedKeys (m : Value) : List Str :=
  match m with
  | .mk (some ks) _ => ks
  | .mk none attrs => attrs.map Prod.fst

/-- The body of the per-symbol try block of `find`: look up the value
(a failing lookup skips the symbol), apply the three-argument
condition call (a raised exception also skips the symbol), and yield
`(name, value)` on acceptance. -/
def processKey (symF : Str → Str → Value → Option Bool) (name : Str)
    (m : Value) (k : Str) : Option (Str × Value) :=
  match pyGetattr m k with
  | none => none
  | some thing =>
    match symF name k thing with
    | some true => some (k, thing)
    | some false => none
    | none => none

/-- The per-module symbol extraction of `find`: iterate the selected
keys, skipping symbols whose lookup or filter fails. -/
def processModule (symF : Str → Str → Value → Option Bool) (name : Str)
    (m : Value) : List (Str × Value) :=
  (selectedKeys m).filterMap (processKey symF name m)

/-- The per-candidate loop of `find`: import each enumerated name
through the loader oracle `env` (a failed import is logged and the
candidate skipped), then extract its symbols. -/
def findCore (env : Str → Option Value)
    (symF : Str → Str → Value → Option Bool) : List Str → List (Str × Value)
  | [] => []
  | n :: ns =>
    (match env n with
      | none => []
      | some m => processModule symF n m) ++ findCore env symF ns

/-- The `find` function of importutils.py: normalize the prefix to end
with a dot when non-empty, enumerate candidates with `_itermodules`,
and yield the accepted symbols of each loadable candidate. -/
def find (fs : FS) (walk : List Str → Str → List Str × Bool) (o : CondObj)
    (env : Str → Option Value) (paths : List Str) (pfx : Str)
    (fuel : Nat) : List (Str × Value) :=
  let pfx2 :=
    if pfx.isEmpty then pfx
    else if pyEndsWith pfx ['.'] then pfx
    else pfx ++ ['.']
  findCore env o.call3 (itermodules fs walk o paths pfx2 fuel)

/-- The type-relationship collaborator used by `IsSubclass`: whether a
value is a `type`, and the `issubclass` check, whose raised exceptions
are modelled as `none`. -/
structure TypeOracle where
  isType : Value → Bool
  subclass : Value → Value → Option Bool

/-- An `IsSubclass(baseclass)` instance holds the base class. -/
structure IsSubclass where
  base : Value

/-- IsSubclass.__call__: `isinstance(thing, type) and issubclass(thing,
self.base)` inside a try block whose except clause returns False, so a
raising subclass check is treated as not accepted. -/
def IsSubclass.callCond (T : TypeOracle) (self : IsSubclass)
    (_modname _name : Str) (thing : Value) : Bool :=
  if T.isType thing then
    match T.subclass thing self.base with
    | some b => b
    | none => false
  else false

/-- Modelled from the spec's words for claim C5: the names yielded
while listing one directory — for each entry, the candidate name is
the prefix concatenated with the entry's base name minus its
extension, and an accepted candidate is yielded. -/
def specYields (_fs : FS) (cond : Str → Str → Bool) (pfx dirpath : Str)
    (entries : List Str) : List Str :=
  entries.filterMap (fun fname =>
    let candidate := pfx ++ (pySplitext fname).1
    let fullpath := pyJoinPath dirpath fname
    if cond candidate fullpath then some candidate else none)

/-- Modelled from the spec's words for claim C5: the queue items
pushed while listing one directory — each accepted entry that is a
directory is pushed as `(candidate + '.', fullEntryPath)`. -/
def specPushes (fs : FS) (cond : Str → Str → Bool) (pfx dirpath : Str)
    (entries : List Str) : List (Str × Str) :=
  entries.filterMap (fun fname =>
    let candidate := pfx ++ (pySplitext fname).1
    let fullpath := pyJoinPath dirpath fname
    if cond candidate fullpath then
      if fs.isDir fullpath then some (candidate ++ ['.'], fullpath)
      else none
    else none)

/-- Modelled from the spec's words for claim C5: breadth-first
traversal over a work queue; each popped file path is replaced by its
containing directory, the directory's yields are produced before any
descent, and pushed sub-directories are appended behind the remaining
queue so all siblings at one depth are visited before descending. -/
def specFallback (fs : FS) (cond : Str → Str → Bool) :
    Nat → List (Str × Str) → List Str
  | 0, _ => []
  | _ + 1, [] => []
  | fuel + 1, (pfx, p) :: rest =>
    let p1 := fs.normabs p
    let p2 := if fs.isFile p1 then pyDirname p1 else p1
    specYields fs cond pfx p2 (fs.listdir p2) ++
      specFallback fs cond fuel
        (rest ++ specPushes fs cond pfx p2 (fs.listdir p2))

/-- Modelled from the spec's words for claim C6: whether the hosting
runtime treats all directories as implicit (namespace) packages, true
for CPython 3.3 and later. -/
def runtimeTreatsDirsAsPackages (major minor : Nat) : Bool :=
  decide (3 < major ∨ (major = 3 ∧ 3 ≤ minor))

/-- Modelled from the spec's words for claim C6: the intended package
test — a directory containing the package-marker file, or any
directory when the runtime treats all directories as implicit
packages. -/
def specIsPackage (fs : FS) (major minor : Nat) (fullpath : Str) : Bool :=
  fs.isDir fullpath &&
    (fs.isFile (pyJoinPath fullpath (pyStr "__init__.py")) ||
      runtimeTreatsDirsAsPackages major minor)

/-- Concrete filesystem: a root directory `r` containing the single
module file `m.py`. -/
def exFS : FS where
  isFile := fun p => p == pyStr "r/m.py"
  isDir := fun p => p == pyStr "r"
  listdir := fun p => if p == pyStr "r" then [pyStr "m.py"] else []
  normabs := fun p => p

/-- A package walker that yields the name `m` and then raises. -/
def exWalkRaise : List Str → Str → List Str × Bool :=
  fun _ _ => ([pyStr "m"], true)

/-- A package walker that yields the name `m` and finishes normally. -/
def okWalk : List Str → Str → List Str × Bool :=
  fun _ _ => ([pyStr "m"], false)

/-- A loader defining only the module `m`, which exports a public
symbol `x`. -/
def okEnv : Str → Option Value :=
  fun n => if n == pyStr "m"
    then some (Value.mk none [(pyStr "x", Value.mk none [])])
    else none

/-- Concrete filesystem: a root directory `r` containing the single
underscore-prefixed module file `_x.py`. -/
def c3FS : FS where
  isFile := fun p => p == pyStr "r/_x.py"
  isDir := fun p => p == pyStr "r"
  listdir := fun p => if p == pyStr "r" then [pyStr "_x.py"] else []
  normabs := fun p => p

/-- A bare callable passed as the condition: it has no `checkmod`
attribute, and accepts everything at either calling arity. -/
def c3Bare : CondObj where
  checkmodAttr := none
  call2 := fun _ _ => true
  call3 := fun _ _ _ => some true

/-- A package walker that raises before yielding anything. -/
def walkFail : List Str → Str → List Str × Bool := fun _ _ => ([], true)

/-- An empty concrete filesystem (only the primary strategy is
relevant for the claim-C4 counterexample). -/
def c4FS : FS where
  isFile := fun _ => false
  isDir := fun _ => false
  listdir := fun _ => []
  normabs := fun p => p

/-- A package walker that yields the underscore-named module
`_hidden` verbatim and finishes normally, as `pkgutil.walk_packages`
does for underscore-named modules. -/
def c4Walk : List Str → Str → List Str × Bool :=
  fun _ _ => ([pyStr "_hidden"], false)

/-- A loader defining only the module `_hidden`, which carries one
public symbol `x`. -/
def c4Env : Str → Option Value :=
  fun n => if n == pyStr "_hidden"
    then some (Value.mk none [(pyStr "x", Value.mk none [])])
    else none

/-- Concrete filesystem: `r/pkg` is a directory and no file exists at
all — in particular `r/pkg/__init__.py` does not. -/
def c6FS : FS where
  isFile := fun _ => false
  isDir := fun p => p == pyStr "r/pkg"
  listdir := fun _ => []
  normabs := fun p => p

/-! Helper lemmas about the string model. -/

theorem pySplit_ne_nil (s : Str) (c : Char) : pySplit s c ≠ [] := by
  cases s with
  | nil => simp [pySplit]
  | cons x xs =>
    simp only [pySplit]
    split
    · simp
    · cases h : pySplit xs c with
      | nil => simp [consHead]
      | cons y ys => simp [consHead]

theorem pyJoin_consHead (sep : Str) (x : Char) (l : List Str) :
    pyJoin sep (consHead x l) = x :: pyJoin sep l := by
  cases l with
  | nil => rfl
  | cons h t =>
    cases t with
    | nil => rfl
    | cons a b => simp [consHead, pyJoin]

theorem pyJoin_pySplit (s : Str) (c : Char) :
    pyJoin [c] (pySplit s c) = s := by
  induction s with
  | nil => rfl
  | cons x xs ih =>
    simp only [pySplit]
    split
    · rename_i hx
      cases h : pySplit xs c with
      | nil => exact absurd h (pySplit_ne_nil xs c)
      | cons y ys =>
        rw [h] at ih
        simp [pyJoin, hx, ← ih]
    · rw [pyJoin_consHead, ih]

theorem mem_of_mem_pySplit {s t : Str} {c a : Char}
    (ht : t ∈ pySplit s c) (ha : a ∈ t) : a ∈ s := by
  induction s generalizing t with
  | nil =>
    simp [pySplit] at ht
    subst ht
    simp at ha
  | cons x xs ih =>
    simp only [pySplit] at ht
    split at ht
    · rcases List.mem_cons.mp ht with h | h
      · subst h; simp at ha
      · exact List.mem_cons_of_mem _ (ih h ha)
    · cases hsp : pySplit xs c with
      | nil => exact absurd hsp (pySplit_ne_nil xs c)
      | cons y ys =>
        rw [hsp] at ht
        simp only [consHead] at ht
        rcases List.mem_cons.mp ht with h | h
        · subst h
          rcases List.mem_cons.mp ha with h' | h'
          · exact h' ▸ List.mem_cons_self x xs
          · exact List.mem_cons_of_mem _ (ih (hsp ▸ List.mem_cons_self y ys) h')
        · exact List.mem_cons_of_mem _ (ih (hsp ▸ List.mem_cons_of_mem y h) ha)

theorem pySplitFirst_of_not_mem {s : Str} {c : Char} (h : c ∉ s) :
    pySplitFirst s c = (s, none) := by
  induction s with
  | nil => rfl
  | cons x xs ih =>
    have hxc : ¬ x = c := by rintro rfl; exact h (List.mem_cons_self _ _)
    have hcs : c ∉ xs := fun hm => h (List.mem_cons_of_mem x hm)
    simp [pySplitFirst, hxc, ih hcs]

theorem pySplitFirst_append {a : Str} (b : Str) {c : Char} (h : c ∉ a) :
    pySplitFirst (a ++ c :: b) c = (a, some b) := by
  induction a with
  | nil => simp [pySplitFirst]
  | cons x xs ih =>
    have hxc : ¬ x = c := by rintro rfl; exact h (List.mem_cons_self _ _)
    have hcs : c ∉ xs := fun hm => h (List.mem_cons_of_mem x hm)
    simp [pySplitFirst, hxc, ih hcs]

theorem not_mem_pySplitFirst_fst (s : Str) (c : Char) :
    c ∉ (pySplitFirst s c).1 := by
  induction s with
  | nil => simp [pySplitFirst]
  | cons x xs ih =>
    simp only [pySplitFirst]
    split
    · simp
    · rename_i hx
      intro hmem
      rcases List.mem_cons.mp hmem with h | h
      · exact hx h.symm
      · exact ih h

theorem not_mem_pyJoin {c : Char} {sep : Str} {xs : List Str}
    (hsep : c ∉ sep) (h : ∀ x ∈ xs, c ∉ x) : c ∉ pyJoin sep xs := by
  induction xs with
  | nil => simp [pyJoin]
  | cons y ys ih =>
    cases ys with
    | nil => exact h y (List.mem_cons_self y [])
    | cons z zs =>
      simp only [pyJoin, List.append_assoc, List.mem_append]
      push_neg
      refine ⟨h y (List.mem_cons_self y _), hsep, ?_⟩
      exact ih (fun x hx => h x (List.mem_cons_of_mem y hx))

theorem lookupT_mem {T : List (Str × Str)} {s v : Str}
    (h : lookupT T s = some v) : (s, v) ∈ T := by
  induction T with
  | nil => simp [lookupT] at h
  | cons kv rest ih =>
    obtain ⟨k, w⟩ := kv
    simp only [lookupT] at h
    split at h
    · rename_i hk
      subst hk
      simp at h
      subst h
      exact List.mem_cons_self _ _
    · exact List.mem_cons_of_mem _ (ih h)

theorem tget_nil_eq (s : Str) : tget [] s = s := rfl

theorem map_tget_nil (l : List Str) : l.map (tget []) = l := by
  simp only [show tget [] = id from funext tget_nil_eq, List.map_id]

theorem not_mem_tget {T : List (Str × Str)} {c : Char} {s : Str}
    (hT : ∀ kv ∈ T, c ∉ kv.2) (hs : c ∉ s) : c ∉ tget T s := by
  unfold tget
  cases h : lookupT T s with
  | none => exact hs
  | some v => exact hT (s, v) (lookupT_mem h)

/-! Reduction lemmas for the Resolver. -/

theorem pyGet_no_colon (env : Str → Option Value) {m : Str}
    (h : (':' : Char) ∉ m) : pyGet env [] m = env m := by
  simp only [pyGet, pySplitFirst_of_not_mem h, map_tget_nil, pyJoin_pySplit]
  cases env m <;> rfl

theorem pyGet_colon (env : Str → Option Value) {m : Str} (ip : Str)
    (h : (':' : Char) ∉ m) :
    pyGet env [] (m ++ ':' :: ip) =
      match env m with
      | none => none
      | some item =>
        if ip.isEmpty then some item else walkAttrs item (pySplit ip '.') := by
  simp only [pyGet, pySplitFirst_append ip h, map_tget_nil, pyJoin_pySplit]

/-- Claim C1: for a spec string `modpath:itempath` with a colon-free
module path, an empty translation table and a non-empty item path,
`get` loads the module named by the module path and then performs
successive attribute lookups for each dot-separated segment of the
item path, left to right; with no colon, or with an empty item path,
the loaded module itself is returned; and a failing attribute lookup
during the walk propagates, with no partial result. -/
theorem get_resolves_spec_string (env : Str → Option Value) (mp ip : Str)
    (h : (':' : Char) ∉ mp) :
    (ip ≠ [] →
      pyGet env [] (mp ++ ':' :: ip) =
        (env mp).bind (fun m => walkAttrs m (pySplit ip '.')))
    ∧ pyGet env [] mp = env mp
    ∧ pyGet env [] (mp ++ [':']) = env mp
    ∧ (∀ m, env mp = some m → ip ≠ [] →
        walkAttrs m (pySplit ip '.') = none →
        pyGet env [] (mp ++ ':' :: ip) = none) := by
  have hip : ∀ hne : ip ≠ [], ip.isEmpty = false := by
    intro hne
    cases ip with
    | nil => exact absurd rfl hne
    | cons a b => rfl
  refine ⟨?_, pyGet_no_colon env h, ?_, ?_⟩
  · intro hne
    rw [pyGet_colon env ip h]
    cases env mp with
    | none => rfl
    | some m => simp [hip hne]
  · rw [show mp ++ [':'] = mp ++ ':' :: [] from rfl, pyGet_colon env [] h]
    cases env mp <;> rfl
  · intro m hm hne hwalk
    rw [pyGet_colon env ip h, hm]
    simp [hip hne, hwalk]

/-- Witness for claim C1 at a concrete loader: resolving the spec
string `a.b:c.d` walks attribute `c` then attribute `d` of the module
loaded for `a.b`. -/
theorem get_resolves_spec_string_witness :
    pyGet
        (fun n => if n = pyStr "a.b"
          then some (Value.mk none
            [(pyStr "c", Value.mk none [(pyStr "d", Value.mk none [])])])
          else none)
        [] (pyStr "a.b" ++ ':' :: pyStr "c.d") =
      ((fun n => if n = pyStr "a.b"
          then some (Value.mk none
            [(pyStr "c", Value.mk none [(pyStr "d", Value.mk none [])])])
          else none) (pyStr "a.b")).bind
        (fun m => walkAttrs m (pySplit (pyStr "c.d") '.')) :=
  (get_resolves_spec_string
      (fun n => if n = pyStr "a.b"
        then some (Value.mk none
          [(pyStr "c", Value.mk none [(pyStr "d", Value.mk none [])])])
        else none)
      (pyStr "a.b") (pyStr "c.d") (by decide)).1 (by decide)

theorem get_translate_core (env : Str → Option Value)
    (T : List (Str × Str)) (spec : Str)
    (hT : ∀ kv ∈ T, (':' : Char) ∉ kv.2) :
    pyGet env T spec = pyGet env [] (translatedSpec T spec) := by
  cases hps : pySplitFirst spec ':' with
  | mk m iOpt =>
    have hm : (':' : Char) ∉ m := by
      have hfst := not_mem_pySplitFirst_fst spec ':'
      rw [hps] at hfst
      exact hfst
    have hmodT : (':' : Char) ∉ pyJoin ['.'] ((pySplit m '.').map (tget T)) := by
      apply not_mem_pyJoin (by decide)
      intro x hx
      rcases List.mem_map.mp hx with ⟨seg, hseg, rfl⟩
      exact not_mem_tget hT (fun hc => hm (mem_of_mem_pySplit hseg hc))
    cases iOpt with
    | none =>
      have hTS : translatedSpec T spec
          = pyJoin ['.'] ((pySplit m '.').map (tget T)) := by
        simp only [translatedSpec, hps]
      rw [hTS, pyGet_no_colon env hmodT]
      simp only [pyGet, hps]
      cases env (pyJoin ['.'] ((pySplit m '.').map (tget T))) <;> rfl
    | some ip =>
      have hTS : translatedSpec T spec
          = pyJoin ['.'] ((pySplit m '.').map (tget T)) ++ ':' :: ip := by
        simp only [translatedSpec, hps]
      rw [hTS, pyGet_colon env ip hmodT]
      simp only [pyGet, hps]

/-- Claim C2: for every translation table mapping segments to
replacement segments (formalized: replacement values are colon-free,
as the data model's segment strings are), resolving a spec string
equals resolving, with an empty table, the spec string whose module
segments have each been replaced by their image under the table
(identity for absent segments) and whose item part is untouched; in
particular resolving `np.random:seed` under the table taking `np` to
`numpy` equals resolving `numpy.random:seed` under the empty table. -/
theorem get_translation_equiv :
    (∀ (env : Str → Option Value) (T : List (Str × Str)) (spec : Str),
      (∀ kv ∈ T, (':' : Char) ∉ kv.2) →
      pyGet env T spec = pyGet env [] (translatedSpec T spec))
    ∧ ∀ env : Str → Option Value,
      pyGet env [(pyStr "np", pyStr "numpy")] (pyStr "np.random:seed")
        = pyGet env [] (pyStr "numpy.random:seed") :=
  ⟨get_translate_core, fun _ => rfl⟩

/-- Witness for claim C2 at a concrete table and spec string. -/
theorem get_translation_equiv_witness :
    pyGet (fun _ => none) [(pyStr "np", pyStr "numpy")]
        (pyStr "np.random:seed")
      = pyGet (fun _ => none) []
          (translatedSpec [(pyStr "np", pyStr "numpy")]
            (pyStr "np.random:seed")) :=
  get_translation_equiv.1 (fun _ => none)
    [(pyStr "np", pyStr "numpy")] (pyStr "np.random:seed") (by decide)

theorem findCore_append (env : Str → Option Value)
    (symF : Str → Str → Value → Option Bool) (a b : List Str) :
    findCore env symF (a ++ b) = findCore env symF a ++ findCore env symF b := by
  induction a with
  | nil => simp [findCore]
  | cons n ns ih => simp [findCore, ih]

/-- Claim C7: a candidate whose load fails is skipped by `find` and
does not prevent the symbols of the other enumerated candidates from
being yielded, whereas `get` applied to the same failing target (as a
colon-free spec string with an empty table) propagates the load
failure to the caller with no fallback. -/
theorem find_skips_failing_unit_get_raises (env : Str → Option Value)
    (symF : Str → Str → Value → Option Bool) (ns1 : List Str) (bad : Str)
    (ns2 : List Str) (h : env bad = none) :
    findCore env symF (ns1 ++ bad :: ns2)
        = findCore env symF ns1 ++ findCore env symF ns2
    ∧ ((':' : Char) ∉ bad → pyGet env [] bad = none) := by
  constructor
  · rw [findCore_append]
    simp [findCore, h]
  · intro hc
    rw [pyGet_no_colon env hc, h]

/-- Witness for claim C7 at a concrete failing loader. -/
theorem find_skips_failing_unit_get_raises_witness :
    findCore (fun _ => none) (fun _ _ _ => some true)
        ([pyStr "a"] ++ pyStr "bad" :: [pyStr "c"])
      = findCore (fun _ => none) (fun _ _ _ => some true) [pyStr "a"]
        ++ findCore (fun _ => none) (fun _ _ _ => some true) [pyStr "c"] :=
  (find_skips_failing_unit_get_raises (fun _ => none)
    (fun _ _ _ => some true) [pyStr "a"] (pyStr "bad") [pyStr "c"] rfl).1

/-- Claim C8: for a loaded unit, `find` takes the symbol-name set to
be the declared export list when present and the full attribute-name
listing otherwise; and for any key of that set whose value lookup
fails, or on whose value the condition call raises, only that symbol
is skipped — the symbols produced by the keys before and after it are
unaffected. -/
theorem find_symbol_set_and_skip (symF : Str → Str → Value → Option Bool)
    (name : Str) (attrs : List (Str × Value)) :
    (∀ ks, selectedKeys (Value.mk (some ks) attrs) = ks)
    ∧ selectedKeys (Value.mk none attrs) = attrs.map Prod.fst
    ∧ ∀ (aOpt : Option (List Str)) (l : List Str) (k : Str) (r : List Str),
        selectedKeys (Value.mk aOpt attrs) = l ++ k :: r →
        (pyGetattr (Value.mk aOpt attrs) k = none ∨
          ∃ v, pyGetattr (Value.mk aOpt attrs) k = some v
            ∧ symF name k v = none) →
        processModule symF name (Value.mk aOpt attrs)
          = l.filterMap (processKey symF name (Value.mk aOpt attrs))
            ++ r.filterMap (processKey symF name (Value.mk aOpt attrs)) := by
  refine ⟨fun ks => rfl, rfl, ?_⟩
  intro aOpt l k r hsel hfail
  have hk : processKey symF name (Value.mk aOpt attrs) k = none := by
    rcases hfail with hnone | ⟨v, hv, hraise⟩
    · simp [processKey, hnone]
    · simp [processKey, hv, hraise]
  rw [processModule, hsel, List.filterMap_append, List.filterMap_cons_none hk]

/-- Witness for claim C8: a condition call that raises on the only
declared export produces no symbols, matching the two empty
surrounding segments. -/
theorem find_symbol_set_and_skip_witness :
    processModule (fun _ _ _ => none) (pyStr "m")
        (Value.mk (some [pyStr "k"]) [(pyStr "k", Value.mk none [])])
      = List.filterMap
          (processKey (fun _ _ _ => none) (pyStr "m")
            (Value.mk (some [pyStr "k"]) [(pyStr "k", Value.mk none [])])) []
        ++ List.filterMap
          (processKey (fun _ _ _ => none) (pyStr "m")
            (Value.mk (some [pyStr "k"]) [(pyStr "k", Value.mk none [])])) [] :=
  (find_symbol_set_and_skip (fun _ _ _ => none) (pyStr "m")
      [(pyStr "k", Value.mk none [])]).2.2
    (some [pyStr "k"]) [] (pyStr "k") [] rfl
    (Or.inr ⟨Value.mk none [], rfl, rfl⟩)

/-- Claim C9: the symbol filter of `IsSubclass(base)` accepts a value
exactly when the value is a type and the subclass check affirms it is
a subclass of the base, and whenever the type-relationship check
raises, the result is False — the call itself never raises (it is
total and Boolean by construction). -/
theorem issubclass_condition (T : TypeOracle) (self : IsSubclass)
    (modname nm : Str) (thing : Value) :
    (IsSubclass.callCond T self modname nm thing = true ↔
      T.isType thing = true ∧ T.subclass thing self.base = some true)
    ∧ (T.subclass thing self.base = none →
        IsSubclass.callCond T self modname nm thing = false) := by
  constructor
  · cases h : T.isType thing
    · simp [IsSubclass.callCond, h]
    · cases hs : T.subclass thing self.base with
      | none => simp [IsSubclass.callCond, h, hs]
      | some b => cases b <;> simp [IsSubclass.callCond, h, hs]
  · intro hs
    cases h : T.isType thing <;> simp [IsSubclass.callCond, h, hs]

/-- Witness for claim C9: with a subclass check that raises on every
input, the filter answers False instead of propagating. -/
theorem issubclass_condition_witness :
    IsSubclass.callCond ⟨fun _ => true, fun _ _ => none⟩ ⟨Value.mk none []⟩
        (pyStr "m") (pyStr "n") (Value.mk none []) = false :=
  (issubclass_condition ⟨fun _ => true, fun _ _ => none⟩ ⟨Value.mk none []⟩
    (pyStr "m") (pyStr "n") (Value.mk none [])).2 rfl

/-! Lemmas about the fallback walker and the enumerator. -/

theorem listdirLoop_eq_spec (fs : FS) (cond : Str → Str → Bool)
    (pfx dirpath : Str) :
    ∀ (entries : List Str) (queue : List (Str × Str)),
    listdirLoop fs cond pfx dirpath entries queue =
      (specYields fs cond pfx dirpath entries,
        queue ++ specPushes fs cond pfx dirpath entries) := by
  intro entries
  induction entries with
  | nil => intro queue; simp [listdirLoop, specYields, specPushes]
  | cons fname rest ih =>
    intro queue
    by_cases hc :
        cond (pfx ++ (pySplitext fname).1) (pyJoinPath dirpath fname) = true
    · by_cases hd : fs.isDir (pyJoinPath dirpath fname) = true
      · simp [listdirLoop, specYields, specPushes, hc, hd, ih]
      · simp [listdirLoop, specYields, specPushes, hc, hd, ih]
    · simp [listdirLoop, specYields, specPushes, hc, ih]

theorem fallbackWalk_eq_spec (fs : FS) (cond : Str → Str → Bool) :
    ∀ (fuel : Nat) (queue : List (Str × Str)),
    fallbackWalk fs cond fuel queue = specFallback fs cond fuel queue := by
  intro fuel
  induction fuel with
  | zero => intro queue; rfl
  | succ n ih =>
    intro queue
    cases queue with
    | nil => rfl
    | cons item rest =>
      obtain ⟨pfx, p⟩ := item
      simp only [fallbackWalk, specFallback, listdirLoop_eq_spec]
      rw [ih]

theorem itermodules_raise (fs : FS) (walk : List Str → Str → List Str × Bool)
    (o : CondObj) (paths : List Str) (pfx : Str) (fuel : Nat) (ns : List Str)
    (h : walk (paths.map (fun p => if fs.isFile p then pyDirname p else p))
        pfx = (ns, true)) :
    itermodules fs walk o paths pfx fuel
      = ns ++ fallbackWalk fs (resolveCheckmod o) fuel
          (paths.map (fun p => (pfx, p))) := by
  simp [itermodules, h]

theorem specYields_mem {fs : FS} {cond : Str → Str → Bool}
    {pfx dirpath : Str} {entries : List Str} {y : Str}
    (h : y ∈ specYields fs cond pfx dirpath entries) :
    ∃ fp, cond y fp = true := by
  rcases List.mem_filterMap.mp h with ⟨fname, _, hf⟩
  simp only at hf
  by_cases hc :
      cond (pfx ++ (pySplitext fname).1) (pyJoinPath dirpath fname) = true
  · rw [if_pos hc] at hf
    obtain rfl : pfx ++ (pySplitext fname).1 = y := Option.some.inj hf
    exact ⟨pyJoinPath dirpath fname, hc⟩
  · rw [if_neg hc] at hf
    exact absurd hf (Option.noConfusion)

theorem specFallback_mem {fs : FS} {cond : Str → Str → Bool} :
    ∀ {fuel : Nat} {queue : List (Str × Str)} {y : Str},
    y ∈ specFallback fs cond fuel queue → ∃ fp, cond y fp = true := by
  intro fuel
  induction fuel with
  | zero => intro queue y h; simp [specFallback] at h
  | succ n ih =>
    intro queue y h
    cases queue with
    | nil => simp [specFallback] at h
    | cons item rest =>
      obtain ⟨pfx, p⟩ := item
      simp only [specFallback, List.mem_append] at h
      rcases h with h | h
      · exact specYields_mem h
      · exact ih h

theorem fallbackWalk_mem {fs : FS} {cond : Str → Str → Bool}
    {fuel : Nat} {queue : List (Str × Str)} {y : Str}
    (h : y ∈ fallbackWalk fs cond fuel queue) : ∃ fp, cond y fp = true := by
  rw [fallbackWalk_eq_spec] at h
  exact specFallback_mem h

theorem processKey_eq_some {symF : Str → Str → Value → Option Bool}
    {n : Str} {m : Value} {a k : Str} {v : Value}
    (h : processKey symF n m a = some (k, v)) :
    a = k ∧ pyGetattr m k = some v ∧ symF n k v = some true := by
  unfold processKey at h
  split at h
  · exact absurd h Option.noConfusion
  · rename_i thing hg
    split at h
    · rename_i hs
      simp only [Option.some.injEq, Prod.mk.injEq] at h
      obtain ⟨rfl, rfl⟩ := h
      exact ⟨rfl, hg, hs⟩
    · exact absurd h Option.noConfusion
    · exact absurd h Option.noConfusion

theorem findCore_mem {env : Str → Option Value}
    {symF : Str → Str → Value → Option Bool} :
    ∀ {names : List Str} {k : Str} {v : Value},
    (k, v) ∈ findCore env symF names → ∃ n, symF n k v = some true := by
  intro names
  induction names with
  | nil => intro k v h; simp [findCore] at h
  | cons n ns ih =>
    intro k v h
    simp only [findCore, List.mem_append] at h
    rcases h with h | h
    · cases he : env n with
      | none => rw [he] at h; simp at h
      | some m =>
        rw [he] at h
        rcases List.mem_filterMap.mp h with ⟨a, _, ha⟩
        exact ⟨n, (processKey_eq_some ha).2.2⟩
    · exact ih h

/-- Claim C5: when the primary strategy raises, the enumerator is the
already-yielded primary names followed by the spec's breadth-first
queue walk — the queue seeded with one `(prefix, root)` pair per root
in root order, each popped file path replaced by its containing
directory, each entry's candidate name being the prefix concatenated
with the entry's base name minus its extension, accepted candidates
yielded, accepted directories pushed with prefix `candidate + '.'`,
and all of one directory's yields produced before any descent. -/
theorem fallback_is_spec_bfs (fs : FS)
    (walk : List Str → Str → List Str × Bool) (o : CondObj)
    (paths : List Str) (pfx : Str) (fuel : Nat) (ns : List Str)
    (h : walk (paths.map (fun p => if fs.isFile p then pyDirname p else p))
        pfx = (ns, true)) :
    itermodules fs walk o paths pfx fuel
      = ns ++ specFallback fs (resolveCheckmod o) fuel
          (paths.map (fun p => (pfx, p))) := by
  rw [itermodules_raise fs walk o paths pfx fuel ns h, fallbackWalk_eq_spec]

/-- Witness for claim C5 at a concrete filesystem and raising
walker. -/
theorem fallback_is_spec_bfs_witness :
    itermodules exFS exWalkRaise (defaultCondition exFS 3) [pyStr "r"] [] 2
      = [pyStr "m"] ++ specFallback exFS
          (resolveCheckmod (defaultCondition exFS 3)) 2
          [(([] : Str), pyStr "r")] :=
  fallback_is_spec_bfs exFS exWalkRaise (defaultCondition exFS 3)
    [pyStr "r"] [] 2 [pyStr "m"] rfl

/-- Claim C10: when the primary strategy raises after yielding some
names, those names stand and the fallback walker runs reseeded from
the original roots and prefix, so it re-traverses from the beginning;
on the concrete tree with module `m`, whose walker yields `m` and then
raises, the enumeration yields `m` twice. -/
theorem primary_raise_reseeds_and_duplicates :
    (∀ (fs : FS) (walk : List Str → Str → List Str × Bool) (o : CondObj)
        (paths : List Str) (pfx : Str) (fuel : Nat) (ns : List Str),
      walk (paths.map (fun p => if fs.isFile p then pyDirname p else p)) pfx
          = (ns, true) →
      itermodules fs walk o paths pfx fuel
        = ns ++ fallbackWalk fs (resolveCheckmod o) fuel
            (paths.map (fun p => (pfx, p))))
    ∧ exWalkRaise [pyStr "r"] [] = ([pyStr "m"], true)
    ∧ itermodules exFS exWalkRaise (defaultCondition exFS 3) [pyStr "r"] [] 2
        = [pyStr "m", pyStr "m"] :=
  ⟨itermodules_raise, rfl, rfl⟩

/-- Witness for claim C10, applying the reseeding equation at the
concrete raising walker. -/
theorem primary_raise_reseeds_and_duplicates_witness :
    itermodules exFS exWalkRaise (defaultCondition exFS 3) [pyStr "r"] [] 2
      = [pyStr "m"] ++ fallbackWalk exFS
          (resolveCheckmod (defaultCondition exFS 3)) 2
          [(([] : Str), pyStr "r")] :=
  primary_raise_reseeds_and_duplicates.1 exFS exWalkRaise
    (defaultCondition exFS 3) [pyStr "r"] [] 2 [pyStr "m"] rfl

/-- Claim C3, amended: a bare callable supplied as the condition (an
object without a `checkmod` attribute) is itself used as the
path-level filter of the fallback enumeration, called with the
candidate name and the full path — the default policy is not
substituted — while `find` uses the same object's three-argument call
as the symbol-level filter. -/
theorem bare_callable_is_path_filter (fs : FS)
    (walk : List Str → Str → List Str × Bool) (f2 : Str → Str → Bool)
    (f3 : Str → Str → Value → Option Bool) (env : Str → Option Value)
    (paths : List Str) (pfx : Str) (fuel : Nat) (ns : List Str)
    (h : walk (paths.map (fun p => if fs.isFile p then pyDirname p else p))
        pfx = (ns, true)) :
    itermodules fs walk (CondObj.mk none f2 f3) paths pfx fuel
      = ns ++ fallbackWalk fs f2 fuel (paths.map (fun p => (pfx, p)))
    ∧ find fs walk (CondObj.mk none f2 f3) env paths pfx fuel
      = findCore env f3
          (itermodules fs walk (CondObj.mk none f2 f3) paths
            (if pfx.isEmpty then pfx
              else if pyEndsWith pfx ['.'] then pfx else pfx ++ ['.'])
            fuel) :=
  ⟨itermodules_raise fs walk (CondObj.mk none f2 f3) paths pfx fuel ns h,
    rfl⟩

/-- Witness for the amended claim C3 at the concrete tree containing
`_x.py`, with an accept-everything bare callable and a walker that
raises immediately. -/
theorem bare_callable_is_path_filter_witness :
    itermodules c3FS walkFail
        (CondObj.mk none (fun _ _ => true) (fun _ _ _ => some true))
        [pyStr "r"] [] 2
      = [] ++ fallbackWalk c3FS (fun _ _ => true) 2
          [(([] : Str), pyStr "r")] :=
  (bare_callable_is_path_filter c3FS walkFail (fun _ _ => true)
    (fun _ _ _ => some true) (fun _ => none) [pyStr "r"] [] 2 [] rfl).1

/-- Counterexample to claim C3 as stated: with a bare accept-all
callable, the fallback enumeration yields `_x`, although the default
path policy rejects that candidate (its final segment starts with an
underscore) — so path-level acceptance follows the supplied callable,
not the default policy. -/
theorem bare_callable_counterexample :
    itermodules c3FS walkFail c3Bare [pyStr "r"] [] 2 = [pyStr "_x"]
    ∧ Condition.checkmod c3FS 3 (pyStr "_x") (pyStr "r/_x.py") = false :=
  ⟨rfl, rfl⟩

/-- Claim C4, amended: under the default Condition no yielded symbol
name starts with an underscore (this holds whichever enumeration
strategy produced the candidate names), and no name yielded by the
fallback enumeration has an underscore-prefixed final segment; the
primary strategy, however, yields the walker's names verbatim, so
pairs originating from underscore-named modules are not filtered
there. -/
theorem default_condition_underscore_filtering :
    (∀ (fs : FS) (walk : List Str → Str → List Str × Bool)
        (env : Str → Option Value) (vMajor : Nat) (paths : List Str)
        (pfx : Str) (fuel : Nat) (k : Str) (v : Value),
      (k, v) ∈ find fs walk (defaultCondition fs vMajor) env paths pfx fuel →
      pyStartsWith k ['_'] = false)
    ∧ ∀ (fs : FS) (vMajor fuel : Nat) (queue : List (Str × Str)) (nm : Str),
      nm ∈ fallbackWalk fs (Condition.checkmod fs vMajor) fuel queue →
      pyStartsWith (pyRsplitLast nm '.') ['_'] = false := by
  constructor
  · intro fs walk env vMajor paths pfx fuel k v h
    simp only [find] at h
    obtain ⟨n, hsym⟩ := findCore_mem h
    simp only [defaultCondition] at hsym
    cases hb : pyStartsWith k ['_'] with
    | false => rfl
    | true =>
      rw [hb] at hsym
      exact absurd (Option.some.inj hsym) (by simp)
  · intro fs vMajor fuel queue nm h
    obtain ⟨fp, hc⟩ := fallbackWalk_mem h
    have h1 := (Bool.and_eq_true _ _).mp hc |>.1
    cases hb : pyStartsWith (pyRsplitLast nm '.') ['_'] with
    | false => rfl
    | true => rw [hb] at h1; exact absurd h1 (by simp)

/-- Witness for the amended claim C4: the public symbol `x` yielded
from the concrete module `m` has no leading underscore. -/
theorem default_condition_underscore_filtering_witness :
    pyStartsWith (pyStr "x") ['_'] = false :=
  default_condition_underscore_filtering.1 exFS okWalk okEnv 3
    [pyStr "r"] [] 1 (pyStr "x") (Value.mk none [])
    (List.Mem.head _)

/-- Counterexample to claim C4 as stated: under the default Condition
the primary strategy enumerates the underscore-named module `_hidden`
verbatim, the only module the loader defines, and `find` yields its
public symbol `x` — a pair coming from a module whose final name
segment starts with an underscore. -/
theorem default_condition_counterexample :
    find c4FS c4Walk (defaultCondition c4FS 3) c4Env [pyStr "r"] [] 1
        = [(pyStr "x", Value.mk none [])]
    ∧ itermodules c4FS c4Walk (defaultCondition c4FS 3) [pyStr "r"] [] 1
        = [pyStr "_hidden"]
    ∧ pyStartsWith (pyRsplitLast (pyStr "_hidden") '.') ['_'] = true :=
  ⟨rfl, rfl, rfl⟩

/-- Claim C6 (code bug): on a runtime with major version 3 — for
example CPython 3.8, which does treat all directories as implicit
packages — the source's `is_package` rejects a directory lacking
`__init__.py`, because `sys.version_info.major > 3.3` compares the
integer 3 against the float 3.3 and is false for every Python 3.x;
the spec's intended policy accepts that directory, and the code would
only agree on a hypothetical major version of at least 4. -/
theorem version_gate_code_bug :
    Condition.is_package c6FS 3 (pyStr "r/pkg") = false
    ∧ runtimeTreatsDirsAsPackages 3 8 = true
    ∧ specIsPackage c6FS 3 8 (pyStr "r/pkg") = true
    ∧ Condition.is_package c6FS 4 (pyStr "r/pkg") = true
    ∧ Condition.checkmod c6FS 3 (pyStr "pkg") (pyStr "r/pkg") = false := by
  have hq3 : decide ((33 : ℚ) / 10 < ((3 : Nat) : ℚ)) = false := by
    rw [decide_eq_false_iff_not]
    norm_num
  have hq4 : decide ((33 : ℚ) / 10 < ((4 : Nat) : ℚ)) = true := by
    simp only [decide_eq_true_eq]
    norm_num
  refine ⟨?_, rfl, rfl, ?_, ?_⟩
  · calc Condition.is_package c6FS 3 (pyStr "r/pkg")
        = decide ((33 : ℚ) / 10 < ((3 : Nat) : ℚ)) := rfl
      _ = false := hq3
  · calc Condition.is_package c6FS 4 (pyStr "r/pkg")
        = decide ((33 : ℚ) / 10 < ((4 : Nat) : ℚ)) := rfl
      _ = true := hq4
  · calc Condition.checkmod c6FS 3 (pyStr "pkg") (pyStr "r/pkg")
        = decide ((33 : ℚ) / 10 < ((3 : Nat) : ℚ)) := rfl
      _ = false := hq3

end ImportUtils
